import Mathlib

/-!
Verification development for the kpageflags-visualizer page-frame census
engine (`src/main.rs`, `src/tui.rs`).

The Rust sources are embedded shallowly:

* `/proc/kpageflags` is modelled as a byte oracle `file : ℕ → Option ℕ`
  (a byte is present or absent); a whole-record read is modelled by
  `ReadResult`: `success flags` for `Ok(Some(flags))`, `absent` for the
  `UnexpectedEof ⇒ Ok(None)` path and `ioError` for `Err(_)`.
* The shared `Arc<AtomicBool>` cancellation flag is read-only inside every
  scan (only the ctrl-c handler in `main` stores `true`), so a scan sees a
  pure Boolean history: we pass `flag : ℕ → Bool`, the value the atomic
  load would observe at loop iteration `it`.
* `u64`/`u32` arithmetic is carried out on `ℕ`; where wrap-around could
  matter (`start_pfn + count`, `pfn * 8`, `sample_size * 10`) the theorems
  carry explicit machine-width side conditions.
* The random number generator of the sampling mode is abstracted by the
  sequence `rng : ℕ → ℕ` of drawn PFNs, indexed by the attempt counter;
  `genRange` models `rand::Rng::gen_range(lo..hi)`, whose panic on an
  empty range is modelled by `none`.
-/

/-- Flag categories, from `enum FlagCategory` in `main.rs` (the source
constructor `IO` is rendered `Io` here). -/
inductive FlagCategory where
  | State
  | Memory
  | Usage
  | Allocation
  | Io
  | Structure
  | Special
  | Error
deriving DecidableEq, Repr

/-- The discriminant of a category, as used by `*category as usize` for
indexing the 8-entry category-counter arrays. -/
def FlagCategory.idx : FlagCategory → ℕ
  | .State => 0
  | .Memory => 1
  | .Usage => 2
  | .Allocation => 3
  | .Io => 4
  | .Structure => 5
  | .Special => 6
  | .Error => 7

/-- The static flag catalog `PAGE_FLAGS`: `(bit_mask, name, description,
category)`, transcribed from `main.rs` lines 38–153. -/
def PAGE_FLAGS : List (ℕ × String × String × FlagCategory) :=
  [ (1 <<< 0, "LOCKED", "Page is locked", .State),
    (1 <<< 1, "ERROR", "Page has error", .Error),
    (1 <<< 2, "REFERENCED", "Page has been referenced", .Usage),
    (1 <<< 3, "UPTODATE", "Page is up to date", .State),
    (1 <<< 4, "DIRTY", "Page is dirty", .State),
    (1 <<< 5, "LRU", "Page is on LRU list", .Memory),
    (1 <<< 6, "ACTIVE", "Page is on active list", .Memory),
    (1 <<< 7, "SLAB", "Page is slab allocated", .Allocation),
    (1 <<< 8, "WRITEBACK", "Page is under writeback", .Io),
    (1 <<< 9, "RECLAIM", "Page is being reclaimed", .Memory),
    (1 <<< 10, "BUDDY", "Page is free buddy page", .Allocation),
    (1 <<< 11, "MMAP", "Page is memory mapped", .Usage),
    (1 <<< 12, "ANON", "Page is anonymous", .Usage),
    (1 <<< 13, "SWAPCACHE", "Page is in swap cache", .Memory),
    (1 <<< 14, "SWAPBACKED", "Page is swap backed", .Memory),
    (1 <<< 15, "COMPOUND_HEAD", "Compound page head", .Structure),
    (1 <<< 16, "COMPOUND_TAIL", "Compound page tail", .Structure),
    (1 <<< 17, "HUGE", "Huge page", .Structure),
    (1 <<< 18, "UNEVICTABLE", "Page is unevictable", .Memory),
    (1 <<< 19, "HWPOISON", "Hardware poisoned page", .Error),
    (1 <<< 20, "NOPAGE", "No page frame exists", .State),
    (1 <<< 21, "KSM", "KSM page", .Special),
    (1 <<< 22, "THP", "Transparent huge page", .Structure),
    (1 <<< 23, "OFFLINE", "Page is offline", .State),
    (1 <<< 24, "ZERO_PAGE", "Zero page", .Special),
    (1 <<< 25, "IDLE", "Page is idle", .Usage),
    (1 <<< 26, "PGTABLE", "Page table page", .Special),
    (1 <<< 32, "RESERVED", "Reserved page (common in early memory)", .State) ]

/-- A page record: PFN plus raw flag bitmask (`struct PageInfo`). -/
structure PageInfo where
  pfn : ℕ
  flags : ℕ
deriving DecidableEq, Repr

/-- `PageInfo::get_flag_names`. -/
def PageInfo.get_flag_names (p : PageInfo) : List String :=
  (PAGE_FLAGS.filter (fun e => p.flags &&& e.1 != 0)).map (fun e => e.2.1)

/-- `PageInfo::get_unknown_flags`: `known_flags` is the *sum* of all
catalog masks (`.map(|(flag, _, _, _)| flag).sum()`), the record's bits
outside it are collected one bit position at a time over `0..64`.
`!known_flags` on `u64` is modelled as xor with `2 ^ 64 - 1`. -/
def PageInfo.get_unknown_flags (p : PageInfo) : List ℕ :=
  let known_flags : ℕ := (PAGE_FLAGS.map (fun e => e.1)).sum
  let unknown_flags : ℕ := p.flags &&& (known_flags ^^^ (2 ^ 64 - 1))
  (List.range 64).filter (fun bit => unknown_flags &&& (1 <<< bit) != 0)

/-- Outcome of one 8-byte record read (`read_page_flags`):
`success` ↔ `Ok(Some(flags))`, `absent` ↔ `Ok(None)` (UnexpectedEof),
`ioError` ↔ `Err(e)`. -/
inductive ReadResult where
  | success (flags : ℕ)
  | absent
  | ioError
deriving DecidableEq, Repr

/-- Whether a read produced a record. -/
def ReadResult.isSuccess : ReadResult → Bool
  | .success _ => true
  | _ => false

/-- Little-endian `u64` read of the 8 bytes at `off`, as performed by
`read_page_flags` after seeking: `none` when any of the 8 bytes is past
the end of the table (the `UnexpectedEof ⇒ Ok(None)` path). Bytes are
reduced mod 256 to reflect their `u8` type. -/
def readU64LE (file : ℕ → Option ℕ) (off : ℕ) : Option ℕ :=
  ((List.range 8).mapM (fun i => file (off + i))).map
    (fun bs => bs.foldr (fun b acc => b % 256 + 256 * acc) 0)

/-- `read_page_flags(pfn)`: seek to byte offset `pfn * 8` and read one
little-endian `u64`. A byte-backed oracle never takes the `Err` path. -/
def fileOracle (file : ℕ → Option ℕ) (pfn : ℕ) : ReadResult :=
  match readU64LE file (pfn * 8) with
  | some v => .success v
  | none => .absent

/-! ### Mode A / the `--tui` chunk loader: `KPageFlagsReader::read_range` -/

/-- Loop body of `read_range` (`main.rs` 351–395). State:
`len` = `pages.len()` so far (records are emitted front-to-back instead of
pushed into an accumulator, so only the length is threaded), `cf` =
`consecutive_failures`, `pfn` = next PFN, `remaining` = PFNs left in
`start_pfn..start_pfn + count`, `it` = loop iteration index used to sample
the cancellation flag. Per iteration: when `pages.len() % 1000 == 0` the
interrupt flag is polled and a set flag breaks; a successful read appends
the record and resets `cf`; a failed read (absent record or I/O error)
increments `cf` and breaks once `cf > 1000`. There is no safety-limit
check in `read_range`. -/
def readRangeLoop (oracle : ℕ → ReadResult) (flag : ℕ → Bool)
    (len cf pfn : ℕ) : ℕ → ℕ → List PageInfo
  | 0, _ => []
  | remaining + 1, it =>
    if len % 1000 = 0 ∧ flag it = true then []
    else
      match oracle pfn with
      | .success fl =>
          ⟨pfn, fl⟩ :: readRangeLoop oracle flag (len + 1) 0 (pfn + 1) remaining (it + 1)
      | _ =>
          if 1000 ≤ cf then []
          else readRangeLoop oracle flag len (cf + 1) (pfn + 1) remaining (it + 1)

/-- `read_range(start_pfn, count)`: bounded range scan (Mode A). -/
def read_range (oracle : ℕ → ReadResult) (flag : ℕ → Bool)
    (start_pfn count : ℕ) : List PageInfo :=
  readRangeLoop oracle flag 0 0 start_pfn count 0

/-! ### Mode B: `KPageFlagsReader::read_all_pages` -/

/-- Loop body of `read_all_pages` (`main.rs` 246–338). Same body as
`read_range` except the iteration is unbounded and, after `pfn += 1`,
`pages.len() > 100_000_000` breaks the loop (the safety limit). The
check runs on both branches; on the failure branch it can never fire
because the length did not change, but it is kept for fidelity. -/
def readAllLoop (oracle : ℕ → ReadResult) (flag : ℕ → Bool)
    (len cf pfn it : ℕ) : List PageInfo :=
  if len % 1000 = 0 ∧ flag it = true then []
  else
    match oracle pfn with
    | .success fl =>
        if 100000000 < len + 1 then [⟨pfn, fl⟩]
        else ⟨pfn, fl⟩ :: readAllLoop oracle flag (len + 1) 0 (pfn + 1) (it + 1)
    | _ =>
        if 1000 ≤ cf then []
        else
          if 100000000 < len then []
          else readAllLoop oracle flag len (cf + 1) (pfn + 1) (it + 1)
termination_by (100000001 - len) * 1001 + (1000 - cf)
decreasing_by
  · omega
  · omega

/-- `read_all_pages(start_pfn)`: unbounded scan (Mode B). -/
def read_all_pages (oracle : ℕ → ReadResult) (flag : ℕ → Bool)
    (start_pfn : ℕ) : List PageInfo :=
  readAllLoop oracle flag 0 0 start_pfn 0

/-! ### Mode C: `KPageFlagsReader::scan_for_summary_only` -/

/-- Aggregate counters of the summary scan: `total_pages`,
`pages_with_flags`, the per-flag hit array (indexed like `PAGE_FLAGS`)
and the 8-entry per-category hit array. -/
structure SummaryState where
  totalPages : ℕ
  pagesWithFlags : ℕ
  flagCounts : List ℕ
  catCounts : List ℕ
deriving DecidableEq, Repr

/-- Per-record counter update (`main.rs` 462–472): when `flags != 0`,
bump `pages_with_flags` and, for every catalog entry whose mask
intersects `flags`, its flag counter and its category's counter. -/
def SummaryState.record (s : SummaryState) (fl : ℕ) : SummaryState :=
  if fl ≠ 0 then
    { totalPages := s.totalPages + 1
      pagesWithFlags := s.pagesWithFlags + 1
      flagCounts := List.zipWith
        (fun e c => if fl &&& e.1 != 0 then c + 1 else c) PAGE_FLAGS s.flagCounts
      catCounts := PAGE_FLAGS.foldl
        (fun cc e =>
          if fl &&& e.1 != 0 then cc.set e.2.2.2.idx (cc.getD e.2.2.2.idx 0 + 1) else cc)
        s.catCounts }
  else { s with totalPages := s.totalPages + 1 }

/-- Loop body of `scan_for_summary_only` (`main.rs` 399–538): break when
`pfn ≥ end_pfn`; poll the interrupt flag when `total_pages % 1000 == 0`;
a success resets `cf` and updates the counters, a failure increments `cf`
and breaks once `cf > 1000`; after `pfn += 1`, `total_pages > 100_000_000`
breaks (on the failure branch that check is dead but kept for fidelity). -/
def summaryLoop (oracle : ℕ → ReadResult) (flag : ℕ → Bool) (endPfn : ℕ)
    (s : SummaryState) (cf pfn it : ℕ) : SummaryState :=
  if endPfn ≤ pfn then s
  else if s.totalPages % 1000 = 0 ∧ flag it = true then s
  else
    match oracle pfn with
    | .success fl =>
        let s1 := s.record fl
        if 100000000 < s1.totalPages then s1
        else summaryLoop oracle flag endPfn s1 0 (pfn + 1) (it + 1)
    | _ =>
        if 1000 ≤ cf then s
        else
          if 100000000 < s.totalPages then s
          else summaryLoop oracle flag endPfn s (cf + 1) (pfn + 1) (it + 1)
termination_by endPfn - pfn
decreasing_by
  · omega
  · omega

/-- `scan_for_summary_only(start_pfn, count)`: low-footprint summary scan
(Mode C). `count = none` means "all": `end_pfn = u64::MAX`. -/
def scan_for_summary_only (oracle : ℕ → ReadResult) (flag : ℕ → Bool)
    (start_pfn : ℕ) (count : Option ℕ) : SummaryState :=
  let endPfn : ℕ := match count with
    | some c => start_pfn + c
    | none => 2 ^ 64 - 1
  summaryLoop oracle flag endPfn
    ⟨0, 0, List.replicate PAGE_FLAGS.length 0, List.replicate 8 0⟩ 0 start_pfn 0

/-! ### Mode D: `KPageFlagsReader::scan_sampled_summary` and the
maximum-PFN estimation -/

/-- `rand::Rng::gen_range(lo..hi)`: a uniform draw from `[lo, hi)`. The
draw is deterministic in an abstract `seed`; an empty range makes
`gen_range` panic, which is modelled by `none`. -/
def genRange (lo hi seed : ℕ) : Option ℕ :=
  if lo < hi then some (lo + seed % (hi - lo)) else none

/-- Counters of the sampling loop: `attempts`, `successful_reads` and
`pages_with_flags` (the per-flag arrays evolve exactly like
`SummaryState.record` and are not needed by any claim, so they are not
threaded here). -/
structure SampleState where
  attempts : ℕ
  successes : ℕ
  pagesWithFlags : ℕ
deriving DecidableEq, Repr

/-- Loop body of `scan_sampled_summary` (`main.rs` 697–749), with the
random PFN stream abstracted as `rng : ℕ → ℕ` indexed by the attempt
counter (in the program, `rng.gen_range(0..estimated_max_pfn)`). The
`while successful_reads < sample_size && attempts < max_attempts` guard
is rendered with a fuel argument holding `max_attempts - attempts`
(every non-breaking iteration does `attempts += 1`). Every 100 attempts
the interrupt flag (indexed here by the attempt counter) is polled. -/
def sampleLoop (oracle : ℕ → ReadResult) (rng : ℕ → ℕ) (flag : ℕ → Bool)
    (sample_size : ℕ) : ℕ → SampleState → SampleState
  | 0, s => s
  | fuel + 1, s =>
    if s.successes < sample_size then
      if s.attempts % 100 = 0 ∧ flag s.attempts = true then s
      else
        let pfn := rng s.attempts
        let s1 : SampleState := { s with attempts := s.attempts + 1 }
        match oracle pfn with
        | .success fl =>
            sampleLoop oracle rng flag sample_size fuel
              { s1 with successes := s1.successes + 1,
                        pagesWithFlags := s1.pagesWithFlags + (if fl ≠ 0 then 1 else 0) }
        | _ => sampleLoop oracle rng flag sample_size fuel s1
    else s

/-- `scan_sampled_summary(sample_size)` (Mode D): up to
`max_attempts = sample_size * 10` random probes, collecting at most
`sample_size` successful samples. -/
def scan_sampled_summary (oracle : ℕ → ReadResult) (rng : ℕ → ℕ)
    (flag : ℕ → Bool) (sample_size : ℕ) : SampleState :=
  sampleLoop oracle rng flag sample_size (sample_size * 10) ⟨0, 0, 0⟩

/-- `get_estimated_total_pages()` (`main.rs` 15–35), the `/proc/meminfo`
hint. The environment is modelled as `meminfo : Option (Option ℕ)`:
`none` = the file cannot be opened or read (the `Err` path),
`some none` = readable but no `MemTotal:` line (fallback `Ok(1048576)`),
`some (some kb)` = a `MemTotal: kb kB` line (`Ok((kb * 1024) / 4096)`). -/
def get_estimated_total_pages (meminfo : Option (Option ℕ)) : Except Unit ℕ :=
  match meminfo with
  | none => .error ()
  | some none => .ok 1048576
  | some (some kb) => .ok (kb * 1024 / 4096)

/-- One midpoint probe round of `binary_search_max_pfn` (`main.rs`
810–827): probe the 10 PFNs `mid..mid + 9`; `probe : ℕ → Bool` models
`read_page_flags_const(p)` returning `Ok(Some(_))`. Returns the number of
valid probes and the updated `last_valid`. -/
def probeRound (probe : ℕ → Bool) (mid last : ℕ) : ℕ × ℕ :=
  ((List.range 10).foldl
    (fun vl o => if probe (mid + o) then (vl.1 + 1, mid + o) else vl) (0, last))

/-- The bisection loop of `binary_search_max_pfn`: while
`high - low > 1000`, probe around `mid = (low + high) / 2`; any valid
probe raises `low` to `mid`, otherwise `high` drops to `mid`. Returns the
final `last_valid`. -/
def bsearchLoop (probe : ℕ → Bool) (low high last : ℕ) : ℕ :=
  if 1000 < high - low then
    let mid := (low + high) / 2
    let vl := probeRound probe mid last
    if 0 < vl.1 then bsearchLoop probe mid high vl.2
    else bsearchLoop probe low mid vl.2
  else last
termination_by high - low
decreasing_by
  · omega
  · omega

/-- `binary_search_max_pfn()`: bisect `[0, 100_000_000)` down to a
bracket of 1000, then report `(last_valid + 10000).max(1_000_000)`. -/
def binary_search_max_pfn (probe : ℕ → Bool) : ℕ :=
  max (bsearchLoop probe 0 100000000 0 + 10000) 1000000

/-- `estimate_max_pfn()` (`main.rs` 789–801): use the `/proc/meminfo`
hint when it yields `Ok`, and fall back to the binary search only when
the hint errors. -/
def estimate_max_pfn (meminfo : Option (Option ℕ)) (probe : ℕ → Bool) : ℕ :=
  match get_estimated_total_pages meminfo with
  | .ok pages => pages
  | .error _ => binary_search_max_pfn probe

/-! ### Interactive explorer (`tui.rs`): view-state and input model -/

/-- `ratatui::layout::Rect` (the fields the explorer uses). -/
structure Rect where
  x : ℕ
  y : ℕ
  width : ℕ
  height : ℕ
deriving DecidableEq, Repr

/-- The explorer view state: the subset of `AppState` (`tui.rs` 25–46)
that the input events touch. `zoom_level : f64` is modelled as an exact
rational (every constant involved — `1.2`, `10.0`, `0.1`, the `u16` cell
coordinates — is far inside the range where `f64` arithmetic on them is
exact, except for rounding inside products/quotients, idealised here);
`offset_x`, `offset_y : i64` as `ℤ`; mouse positions as `ℕ` pairs. The
record list, grid dimensions and scan-progress fields are not consulted
by any claim and are omitted. -/
structure AppState where
  zoom_level : ℚ
  offset_x : ℤ
  offset_y : ℤ
  filter_category : Option FlagCategory
  mouse_selecting : Bool
  selection_start : Option (ℕ × ℕ)
  selection_end : Option (ℕ × ℕ)
  grid_area : Option Rect
deriving DecidableEq, Repr

/-- `AppState::default()`: zoom `1.0`, offsets `0`, no filter, no
selection, no grid area yet. -/
def AppState.default : AppState :=
  ⟨1, 0, 0, none, false, none, none, none⟩

/-- A Rust `f64 as i64` cast of a finite value: truncation toward zero. -/
def f64_as_i64 (q : ℚ) : ℤ :=
  q.num.tdiv q.den

/-- `TuiApp::zoom_in`: `zoom = (zoom * 1.2).min(10.0)`. -/
def zoom_in (s : AppState) : AppState :=
  { s with zoom_level := min (s.zoom_level * (6 / 5)) 10 }

/-- `TuiApp::zoom_out`: `zoom = (zoom / 1.2).max(0.1)`. -/
def zoom_out (s : AppState) : AppState :=
  { s with zoom_level := max (s.zoom_level / (6 / 5)) (1 / 10) }

/-- `TuiApp::move_up`: `offset_y -= (10.0 / zoom) as i64` — no clamp. -/
def move_up (s : AppState) : AppState :=
  { s with offset_y := s.offset_y - f64_as_i64 (10 / s.zoom_level) }

/-- `TuiApp::move_down`: `offset_y += (10.0 / zoom) as i64`. -/
def move_down (s : AppState) : AppState :=
  { s with offset_y := s.offset_y + f64_as_i64 (10 / s.zoom_level) }

/-- `TuiApp::move_left`: `offset_x -= (10.0 / zoom) as i64` — no clamp. -/
def move_left (s : AppState) : AppState :=
  { s with offset_x := s.offset_x - f64_as_i64 (10 / s.zoom_level) }

/-- `TuiApp::move_right`: `offset_x += (10.0 / zoom) as i64`. -/
def move_right (s : AppState) : AppState :=
  { s with offset_x := s.offset_x + f64_as_i64 (10 / s.zoom_level) }

/-- `TuiApp::reset_view` (the `Home` key). -/
def reset_view (s : AppState) : AppState :=
  { s with zoom_level := 1, offset_x := 0, offset_y := 0 }

/-- `TuiApp::cancel_selection` (`Esc`, and after a completed selection). -/
def cancel_selection (s : AppState) : AppState :=
  { s with mouse_selecting := false, selection_start := none, selection_end := none }

/-- `TuiApp::set_filter` (keys `1`–`8` and `0`). -/
def set_filter (s : AppState) (c : Option FlagCategory) : AppState :=
  { s with filter_category := c }

/-- `TuiApp::zoom_to_selection` (`tui.rs` 287–334). Cell-space bounds come
from `saturating_sub` of the grid origin (`ℕ` subtraction); the selection
is applied only when both its width and height exceed 1 cell; the new
zoom is `(zoom_x.min(zoom_y)).min(10.0).max(0.1)` and the recentred
offsets are clamped to `≥ 0`. (`pages_per_row` is computed but unused in
the source and is dropped.) -/
def zoom_to_selection (s : AppState) : AppState :=
  match s.selection_start, s.selection_end, s.grid_area with
  | some st, some en, some g =>
      let grid_start_x := st.1 - g.x
      let grid_start_y := st.2 - g.y
      let grid_end_x := en.1 - g.x
      let grid_end_y := en.2 - g.y
      let min_x := min grid_start_x grid_end_x
      let max_x := max grid_start_x grid_end_x
      let min_y := min grid_start_y grid_end_y
      let max_y := max grid_start_y grid_end_y
      let selection_width := max_x - min_x + 1
      let selection_height := max_y - min_y + 1
      if 1 < selection_width ∧ 1 < selection_height then
        let zoom_x : ℚ := (g.width : ℚ) / (selection_width : ℚ)
        let zoom_y : ℚ := (g.height : ℚ) / (selection_height : ℚ)
        let new_zoom := max (min (min zoom_x zoom_y) 10) (1 / 10)
        let center_x := (min_x + max_x) / 2
        let center_y := (min_y + max_y) / 2
        let ox := f64_as_i64 ((center_x : ℚ) / new_zoom) - (g.width / 2 : ℕ)
        let oy := f64_as_i64 ((center_y : ℚ) / new_zoom) - (g.height / 2 : ℕ)
        { s with zoom_level := new_zoom, offset_x := max ox 0, offset_y := max oy 0 }
      else s
  | _, _, _ => s

/-- The pointer-event kinds the explorer reacts to. -/
inductive MouseKind where
  | down
  | drag
  | up
  | scrollUp
  | scrollDown
deriving DecidableEq, Repr

/-- Whether a pointer position lies inside the grid area
(`handle_mouse_event`'s bounds check). -/
def inGrid (g : Rect) (col row : ℕ) : Bool :=
  g.x ≤ col && col < g.x + g.width && g.y ≤ row && row < g.y + g.height

/-- `TuiApp::handle_mouse_event` (`tui.rs` 249–285): ignored unless a
grid area is known and the pointer is inside it; left-down anchors a
selection, left-drag extends it, left-up completes it (zoom, then clear),
scroll zooms. -/
def handle_mouse_event (s : AppState) (kind : MouseKind) (col row : ℕ) : AppState :=
  match s.grid_area with
  | none => s
  | some g =>
      if inGrid g col row then
        match kind with
        | .down =>
            { s with mouse_selecting := true,
                     selection_start := some (col, row),
                     selection_end := some (col, row) }
        | .drag =>
            if s.mouse_selecting then { s with selection_end := some (col, row) } else s
        | .up =>
            if s.mouse_selecting then
              cancel_selection (zoom_to_selection { s with selection_end := some (col, row) })
            else s
        | .scrollUp => zoom_in s
        | .scrollDown => zoom_out s
      else s

/-- The discrete explorer inputs of the event loop (`tui.rs` 101–142)
that touch the view state, plus `render g`, the `render_grid` step that
records the grid area (`tui.rs` 420). -/
inductive TuiEvent where
  | zoomIn
  | zoomOut
  | moveUp
  | moveDown
  | moveLeft
  | moveRight
  | reset
  | escape
  | setFilter (c : Option FlagCategory)
  | mouse (kind : MouseKind) (col row : ℕ)
  | render (g : Rect)
deriving DecidableEq, Repr

/-- Dispatch of one input event, as in the `run` loop. -/
def applyEvent (s : AppState) : TuiEvent → AppState
  | .zoomIn => zoom_in s
  | .zoomOut => zoom_out s
  | .moveUp => move_up s
  | .moveDown => move_down s
  | .moveLeft => move_left s
  | .moveRight => move_right s
  | .reset => reset_view s
  | .escape => cancel_selection s
  | .setFilter c => set_filter s c
  | .mouse kind col row => handle_mouse_event s kind col row
  | .render g => { s with grid_area := some g }

/-- A whole input history applied to a state. -/
def applyEvents (s : AppState) (es : List TuiEvent) : AppState :=
  es.foldl applyEvent s

/-! ### Statement-side definitions used by the claims -/

/-- The never-set cancellation flag. -/
def noFlag : ℕ → Bool := fun _ => false

/-- A run of 1001 consecutive failed reads starting at PFN `p`. -/
def failWindow (oracle : ℕ → ReadResult) (p : ℕ) : Prop :=
  ∀ q < 1001, (oracle (p + q)).isSuccess = false

/-- The number of successful reads among PFNs `a ≤ p < b`. -/
def successCountRange (oracle : ℕ → ReadResult) (a b : ℕ) : ℕ :=
  ((List.range (b - a)).filter (fun i => (oracle (a + i)).isSuccess)).length

/-- No run of 1001 consecutive failures lies inside
`[start, start + n)`. -/
def noLongRun (oracle : ℕ → ReadResult) (start n : ℕ) : Prop :=
  ∀ j, j + 1001 ≤ n → ∃ q < 1001, (oracle (start + j + q)).isSuccess = true

/-- The reference output of an uninterrupted scan of
`[start, start + count)`: one record per successful read, in PFN order. -/
def fullScan (oracle : ℕ → ReadResult) (start count : ℕ) : List PageInfo :=
  (List.range count).filterMap (fun i =>
    match oracle (start + i) with
    | .success fl => some ⟨start + i, fl⟩
    | _ => none)

/-- Cell-space width of the selection rectangle spanned by `st` and `en`
relative to grid `g`, as `zoom_to_selection` computes it. -/
def selWidth (g : Rect) (st en : ℕ × ℕ) : ℕ :=
  max (st.1 - g.x) (en.1 - g.x) - min (st.1 - g.x) (en.1 - g.x) + 1

/-- Cell-space height of the selection rectangle spanned by `st` and `en`
relative to grid `g`. -/
def selHeight (g : Rect) (st en : ℕ × ℕ) : ℕ :=
  max (st.2 - g.y) (en.2 - g.y) - min (st.2 - g.y) (en.2 - g.y) + 1

/-- The mouse-selection events making up one rectangle selection:
left-down at `d`, a drag trail, left-up at `u`. -/
def selectionEvents (d : ℕ × ℕ) (drags : List (ℕ × ℕ)) (u : ℕ × ℕ) :
    List TuiEvent :=
  .mouse .down d.1 d.2 ::
    (drags.map (fun p => .mouse .drag p.1 p.2) ++ [.mouse .up u.1 u.2])

/-- The zoom clamp invariant of the explorer. -/
def zoomInv (s : AppState) : Prop :=
  1 / 10 ≤ s.zoom_level ∧ s.zoom_level ≤ 10

/-- The offset clamp invariant of the explorer. -/
def offInv (s : AppState) : Prop :=
  0 ≤ s.offset_x ∧ 0 ≤ s.offset_y

/-- Events other than pan-up / pan-left (the two inputs that subtract
unclamped deltas from the offsets). -/
def notPanUpLeft : TuiEvent → Prop
  | .moveUp => False
  | .moveLeft => False
  | _ => True

/-- Reference count of successful reads among the `k` PFNs starting at
`a` (written recursively to mirror the sequential walk). -/
def successCountFrom (oracle : ℕ → ReadResult) : ℕ → ℕ → ℕ
  | _, 0 => 0
  | a, k + 1 => (if (oracle a).isSuccess then 1 else 0) + successCountFrom oracle (a + 1) k

/-- Recursive form of `fullScan`, walking `r` PFNs from `pfn`. -/
def fullScanFrom (oracle : ℕ → ReadResult) : ℕ → ℕ → List PageInfo
  | _, 0 => []
  | pfn, r + 1 =>
    match oracle pfn with
    | .success fl => ⟨pfn, fl⟩ :: fullScanFrom oracle (pfn + 1) r
    | _ => fullScanFrom oracle (pfn + 1) r

/-- Concrete table: PFNs `0..999` absent (a run of exactly 1000
consecutive failures), every later PFN readable with flags `7`. -/
def oracleRun1000 : ℕ → ReadResult :=
  fun p => if p < 1000 then .absent else .success 7

/-- Concrete table: every PFN readable (an unboundedly long table). -/
def oracleAllSuccess : ℕ → ReadResult := fun _ => .success 0

/-- Concrete table: PFNs `0` and `1` readable with flags `5`, the rest
absent. -/
def oracleTwoPages : ℕ → ReadResult :=
  fun p => if p < 2 then .success 5 else .absent

/-- A concrete 16-byte backing file (two records, every byte `0x01`). -/
def wfile : ℕ → Option ℕ := fun i => if i < 16 then some 1 else none

/-- The bitwise OR of all catalog masks (the spec's formulation of
`known_flags`; the source computes the *sum*, which coincides because the
masks are pairwise-distinct single bits). -/
def catalogOr : ℕ := (PAGE_FLAGS.map (fun e => e.1)).foldr (· ||| ·) 0

/-! ### Loop-invariant lemmas -/

theorem record_totalPages (s : SummaryState) (fl : ℕ) :
    (s.record fl).totalPages = s.totalPages + 1 := by
  rw [SummaryState.record]
  split <;> rfl

theorem fullScanFrom_eq_fullScan (oracle : ℕ → ReadResult) :
    ∀ r start, fullScanFrom oracle start r = fullScan oracle start r := by
  intro r
  induction r with
  | zero => intro start; rfl
  | succ n ih =>
      intro start
      rw [fullScan, List.range_succ_eq_map, List.filterMap_cons, List.filterMap_map]
      have harg : (fun j => match oracle (start + j) with
          | .success fl => some (⟨start + j, fl⟩ : PageInfo)
          | _ => none) ∘ (fun j => j + 1) =
          fun j => match oracle (start + 1 + j) with
          | .success fl => some (⟨start + 1 + j, fl⟩ : PageInfo)
          | _ => none := by
        funext j
        simp only [Function.comp]
        rw [show start + (j + 1) = start + 1 + j by omega]
      rw [harg, ← fullScan, ← ih (start + 1)]
      cases hor : oracle (start + 0) with
      | success fl =>
          rw [show start + 0 = start from rfl] at hor
          simp only [fullScanFrom, hor, Nat.add_zero]
      | absent =>
          rw [show start + 0 = start from rfl] at hor
          simp only [fullScanFrom, hor, Nat.add_zero]
      | ioError =>
          rw [show start + 0 = start from rfl] at hor
          simp only [fullScanFrom, hor, Nat.add_zero]

theorem readRangeLoop_mem (oracle : ℕ → ReadResult) (flag : ℕ → Bool) :
    ∀ remaining len cf pfn it rec,
      rec ∈ readRangeLoop oracle flag len cf pfn remaining it →
      pfn ≤ rec.pfn ∧ oracle rec.pfn = .success rec.flags := by
  intro remaining
  induction remaining with
  | zero => intro len cf pfn it rec h; simp [readRangeLoop] at h
  | succ n ih =>
      intro len cf pfn it rec h
      rw [readRangeLoop] at h
      split at h
      · simp at h
      · cases hor : oracle pfn with
        | success fl =>
            simp only [hor] at h
            rcases List.mem_cons.1 h with h | h
            · subst h; exact ⟨le_refl _, hor⟩
            · have := ih _ _ _ _ _ h
              exact ⟨by omega, this.2⟩
        | absent =>
            simp only [hor] at h
            split at h
            · simp at h
            · have := ih _ _ _ _ _ h
              exact ⟨by omega, this.2⟩
        | ioError =>
            simp only [hor] at h
            split at h
            · simp at h
            · have := ih _ _ _ _ _ h
              exact ⟨by omega, this.2⟩

theorem readRangeLoop_chain (oracle : ℕ → ReadResult) (flag : ℕ → Bool) :
    ∀ remaining len cf pfn it,
      List.Chain' (fun a b : PageInfo => a.pfn < b.pfn)
        (readRangeLoop oracle flag len cf pfn remaining it) := by
  intro remaining
  induction remaining with
  | zero => intro len cf pfn it; simp [readRangeLoop]
  | succ n ih =>
      intro len cf pfn it
      rw [readRangeLoop]
      split
      · simp
      · cases hor : oracle pfn with
        | success fl =>
            simp only [hor]
            refine List.chain'_cons'.2 ⟨?_, ih _ _ _ _⟩
            intro y hy
            have hmem := List.mem_of_mem_head? hy
            have := readRangeLoop_mem oracle flag _ _ _ _ _ _ hmem
            simp only []
            omega
        | absent =>
            simp only [hor]
            split
            · simp
            · exact ih _ _ _ _
        | ioError =>
            simp only [hor]
            split
            · simp
            · exact ih _ _ _ _

theorem readRangeLoop_stop (oracle : ℕ → ReadResult) (flag : ℕ → Bool) (p0 : ℕ)
    (hwin : ∀ q < 1001, (oracle (p0 + q)).isSuccess = false) :
    ∀ remaining len cf pfn it, pfn ≤ p0 + 1000 → pfn ≤ p0 + cf →
      ∀ rec ∈ readRangeLoop oracle flag len cf pfn remaining it, rec.pfn < p0 := by
  intro remaining
  induction remaining with
  | zero => intro len cf pfn it h1 h2 rec h; simp [readRangeLoop] at h
  | succ n ih =>
      intro len cf pfn it h1 h2 rec h
      rw [readRangeLoop] at h
      split at h
      · simp at h
      · cases hor : oracle pfn with
        | success fl =>
            have hplt : pfn < p0 := by
              by_contra hge
              push_neg at hge
              have hq := hwin (pfn - p0) (by omega)
              rw [show p0 + (pfn - p0) = pfn by omega, hor] at hq
              simp [ReadResult.isSuccess] at hq
            simp only [hor] at h
            rcases List.mem_cons.1 h with h | h
            · subst h; exact hplt
            · exact ih _ _ _ _ (by omega) (by omega) rec h
        | absent =>
            simp only [hor] at h
            split at h
            · simp at h
            · rename_i hcf
              exact ih _ _ _ _ (by omega) (by omega) rec h
        | ioError =>
            simp only [hor] at h
            split at h
            · simp at h
            · rename_i hcf
              exact ih _ _ _ _ (by omega) (by omega) rec h

theorem readRangeLoop_progress (oracle : ℕ → ReadResult) (start count : ℕ)
    (H : noLongRun oracle start count) :
    ∀ r len cf pfn it, start ≤ pfn → pfn + r = start + count → cf ≤ pfn - start →
      (∀ p, pfn ≤ p + cf → p < pfn → (oracle p).isSuccess = false) →
      readRangeLoop oracle noFlag len cf pfn r it = fullScanFrom oracle pfn r := by
  intro r
  induction r with
  | zero => intro len cf pfn it h0 h1 h2 h3; rfl
  | succ n ih =>
      intro len cf pfn it h0 h1 h2 h3
      rw [readRangeLoop, if_neg (by simp [noFlag])]
      cases hor : oracle pfn with
      | success fl =>
          simp only [hor, fullScanFrom]
          congr 1
          exact ih _ _ _ _ (by omega) (by omega) (by omega) (fun p hp1 hp2 => by omega)
      | absent =>
          have hcf : ¬ (1000 ≤ cf) := by
            intro hge
            obtain ⟨q, hq, hsucc⟩ := H (pfn - start - 1000) (by omega)
            have hpos : start + (pfn - start - 1000) + q = pfn - 1000 + q := by omega
            rw [hpos] at hsucc
            rcases Nat.lt_or_ge (pfn - 1000 + q) pfn with hlt | hge2
            · rw [h3 (pfn - 1000 + q) (by omega) hlt] at hsucc
              simp at hsucc
            · have hq' : pfn - 1000 + q = pfn := by omega
              rw [hq', hor] at hsucc
              simp [ReadResult.isSuccess] at hsucc
          simp only [hor, fullScanFrom]
          rw [if_neg hcf]
          refine ih _ _ _ _ (by omega) (by omega) (by omega) ?_
          intro p hp1 hp2
          rcases Nat.eq_or_lt_of_le (Nat.lt_succ_iff.1 hp2) with heq | hlt
          · subst heq; rw [hor]; rfl
          · exact h3 p (by omega) hlt
      | ioError =>
          have hcf : ¬ (1000 ≤ cf) := by
            intro hge
            obtain ⟨q, hq, hsucc⟩ := H (pfn - start - 1000) (by omega)
            have hpos : start + (pfn - start - 1000) + q = pfn - 1000 + q := by omega
            rw [hpos] at hsucc
            rcases Nat.lt_or_ge (pfn - 1000 + q) pfn with hlt | hge2
            · rw [h3 (pfn - 1000 + q) (by omega) hlt] at hsucc
              simp at hsucc
            · have hq' : pfn - 1000 + q = pfn := by omega
              rw [hq', hor] at hsucc
              simp [ReadResult.isSuccess] at hsucc
          simp only [hor, fullScanFrom]
          rw [if_neg hcf]
          refine ih _ _ _ _ (by omega) (by omega) (by omega) ?_
          intro p hp1 hp2
          rcases Nat.eq_or_lt_of_le (Nat.lt_succ_iff.1 hp2) with heq | hlt
          · subst heq; rw [hor]; rfl
          · exact h3 p (by omega) hlt

theorem sampleLoop_succ_le_att (oracle : ℕ → ReadResult) (rng : ℕ → ℕ)
    (flag : ℕ → Bool) (size : ℕ) :
    ∀ fuel s, s.successes ≤ s.attempts →
      (sampleLoop oracle rng flag size fuel s).successes ≤
        (sampleLoop oracle rng flag size fuel s).attempts := by
  intro fuel
  induction fuel with
  | zero => intro s hs; simpa [sampleLoop] using hs
  | succ n ih =>
      intro s hs
      rw [sampleLoop]
      split
      · split
        · exact hs
        · cases hor : oracle (rng s.attempts) with
          | success fl => simp only [hor]; exact ih _ (by simp; omega)
          | absent => simp only [hor]; exact ih _ (by simp; omega)
          | ioError => simp only [hor]; exact ih _ (by simp; omega)
      · exact hs

theorem sampleLoop_succ_le_size (oracle : ℕ → ReadResult) (rng : ℕ → ℕ)
    (flag : ℕ → Bool) (size : ℕ) :
    ∀ fuel s, s.successes ≤ size →
      (sampleLoop oracle rng flag size fuel s).successes ≤ size := by
  intro fuel
  induction fuel with
  | zero => intro s hs; simpa [sampleLoop] using hs
  | succ n ih =>
      intro s hs
      rw [sampleLoop]
      split
      · rename_i hlt
        split
        · exact hs
        · cases hor : oracle (rng s.attempts) with
          | success fl => simp only [hor]; exact ih _ (by simp; omega)
          | absent => simp only [hor]; exact ih _ (by simp; omega)
          | ioError => simp only [hor]; exact ih _ (by simp; omega)
      · exact hs

theorem sampleLoop_exact (oracle : ℕ → ReadResult) (rng : ℕ → ℕ) (size : ℕ) :
    ∀ fuel s, s.successes ≤ size → s.attempts + fuel = size * 10 →
      (sampleLoop oracle rng noFlag size fuel s).successes ≤ size ∧
      (sampleLoop oracle rng noFlag size fuel s).attempts ≤ size * 10 ∧
      ((sampleLoop oracle rng noFlag size fuel s).successes = size ∨
        (sampleLoop oracle rng noFlag size fuel s).attempts = size * 10) := by
  intro fuel
  induction fuel with
  | zero =>
      intro s hs ha
      simp only [sampleLoop]
      exact ⟨hs, by omega, Or.inr (by omega)⟩
  | succ n ih =>
      intro s hs ha
      rw [sampleLoop]
      split
      · rename_i hlt
        rw [if_neg (by simp [noFlag])]
        cases hor : oracle (rng s.attempts) with
        | success fl => simp only [hor]; exact ih _ (by simp; omega) (by simp; omega)
        | absent => simp only [hor]; exact ih _ (by simp; omega) (by simp; omega)
        | ioError => simp only [hor]; exact ih _ (by simp; omega) (by simp; omega)
      · rename_i hge
        exact ⟨hs, by omega, Or.inl (by omega)⟩

theorem readAllLoop_len_bound (oracle : ℕ → ReadResult) (flag : ℕ → Bool) :
    ∀ len cf pfn it, len ≤ 100000000 →
      (readAllLoop oracle flag len cf pfn it).length + len ≤ 100000001 := by
  intro len cf pfn it
  induction len, cf, pfn, it using readAllLoop.induct oracle flag with
  | case1 len cf pfn it h1 =>
      intro hlen
      rw [readAllLoop, if_pos h1]
      simpa using by omega
  | case2 len cf pfn it h1 fl hor hsafe =>
      intro hlen
      rw [readAllLoop, if_neg h1]
      simp only [hor, if_pos hsafe]
      simp
      omega
  | case3 len cf pfn it h1 fl hor hsafe ih =>
      intro hlen
      rw [readAllLoop, if_neg h1]
      simp only [hor, if_neg hsafe]
      have := ih (by omega)
      simp only [List.length_cons]
      omega
  | case4 len cf pfn it h1 hcf hns =>
      intro hlen
      rw [readAllLoop, if_neg h1]
      cases hor : oracle pfn with
      | success fl => exact absurd hor (by intro h; exact hns fl h)
      | absent => simp only [hor, if_pos hcf]; simp; omega
      | ioError => simp only [hor, if_pos hcf]; simp; omega
  | case5 len cf pfn it h1 hcf hsafe hns =>
      intro hlen
      omega
  | case6 len cf pfn it h1 hcf hsafe hns ih =>
      intro hlen
      rw [readAllLoop, if_neg h1]
      cases hor : oracle pfn with
      | success fl => exact absurd hor (by intro h; exact hns fl h)
      | absent =>
          simp only [hor, if_neg hcf, if_neg hsafe]
          exact ih hlen
      | ioError =>
          simp only [hor, if_neg hcf, if_neg hsafe]
          exact ih hlen

theorem readAllLoop_stop (oracle : ℕ → ReadResult) (flag : ℕ → Bool) (p0 : ℕ)
    (hwin : ∀ q < 1001, (oracle (p0 + q)).isSuccess = false) :
    ∀ len cf pfn it, pfn ≤ p0 + 1000 → pfn ≤ p0 + cf →
      ∀ rec ∈ readAllLoop oracle flag len cf pfn it, rec.pfn < p0 := by
  intro len cf pfn it
  induction len, cf, pfn, it using readAllLoop.induct oracle flag with
  | case1 len cf pfn it h1 =>
      intro _ _ rec hrec
      rw [readAllLoop, if_pos h1] at hrec
      simp at hrec
  | case2 len cf pfn it h1 fl hor hsafe =>
      intro hb1 hb2 rec hrec
      rw [readAllLoop, if_neg h1] at hrec
      simp only [hor, if_pos hsafe] at hrec
      have hplt : pfn < p0 := by
        by_contra hge
        push_neg at hge
        have hq := hwin (pfn - p0) (by omega)
        rw [show p0 + (pfn - p0) = pfn by omega, hor] at hq
        simp [ReadResult.isSuccess] at hq
      simp at hrec
      subst hrec
      exact hplt
  | case3 len cf pfn it h1 fl hor hsafe ih =>
      intro hb1 hb2 rec hrec
      rw [readAllLoop, if_neg h1] at hrec
      simp only [hor, if_neg hsafe] at hrec
      have hplt : pfn < p0 := by
        by_contra hge
        push_neg at hge
        have hq := hwin (pfn - p0) (by omega)
        rw [show p0 + (pfn - p0) = pfn by omega, hor] at hq
        simp [ReadResult.isSuccess] at hq
      rcases List.mem_cons.1 hrec with h | h
      · subst h; exact hplt
      · exact ih (by omega) (by omega) rec h
  | case4 len cf pfn it h1 hcf hns =>
      intro hb1 hb2 rec hrec
      rw [readAllLoop, if_neg h1] at hrec
      cases hor : oracle pfn with
      | success fl => exact absurd hor (fun h => hns fl h)
      | absent => simp only [hor, if_pos hcf] at hrec; simp at hrec
      | ioError => simp only [hor, if_pos hcf] at hrec; simp at hrec
  | case5 len cf pfn it h1 hcf hsafe hns =>
      intro hb1 hb2 rec hrec
      rw [readAllLoop, if_neg h1] at hrec
      cases hor : oracle pfn with
      | success fl => exact absurd hor (fun h => hns fl h)
      | absent =>
          simp only [hor, if_neg hcf, if_pos hsafe] at hrec; simp at hrec
      | ioError =>
          simp only [hor, if_neg hcf, if_pos hsafe] at hrec; simp at hrec
  | case6 len cf pfn it h1 hcf hsafe hns ih =>
      intro hb1 hb2 rec hrec
      rw [readAllLoop, if_neg h1] at hrec
      cases hor : oracle pfn with
      | success fl => exact absurd hor (fun h => hns fl h)
      | absent =>
          simp only [hor, if_neg hcf, if_neg hsafe] at hrec
          exact ih (by omega) (by omega) rec hrec
      | ioError =>
          simp only [hor, if_neg hcf, if_neg hsafe] at hrec
          exact ih (by omega) (by omega) rec hrec

theorem readAllLoop_all_success_length :
    ∀ len cf pfn it, len ≤ 100000000 →
      (readAllLoop (fun _ => ReadResult.success 0) noFlag len cf pfn it).length =
        100000001 - len := by
  intro len cf pfn it
  induction len, cf, pfn, it using
      readAllLoop.induct (fun _ => ReadResult.success 0) noFlag with
  | case1 len cf pfn it h1 => simp [noFlag] at h1
  | case2 len cf pfn it h1 fl hor hsafe =>
      intro hlen
      injection hor with hfl
      subst hfl
      rw [readAllLoop, if_neg h1]
      simp only [if_pos hsafe]
      simp
      omega
  | case3 len cf pfn it h1 fl hor hsafe ih =>
      intro hlen
      injection hor with hfl
      subst hfl
      rw [readAllLoop, if_neg h1]
      simp only [if_neg hsafe]
      simp only [List.length_cons]
      rw [ih (by omega)]
      omega
  | case4 len cf pfn it h1 hcf hns => exact absurd rfl (hns 0)
  | case5 len cf pfn it h1 hcf hsafe hns => exact absurd rfl (hns 0)
  | case6 len cf pfn it h1 hcf hsafe hns ih => exact absurd rfl (hns 0)

theorem readAllLoop_progress_mem (oracle : ℕ → ReadResult) (start n : ℕ)
    (H : noLongRun oracle start n) :
    ∀ len cf pfn it, start ≤ pfn → cf ≤ pfn - start →
      (∀ p, pfn ≤ p + cf → p < pfn → (oracle p).isSuccess = false) →
      len + successCountFrom oracle pfn (start + n - pfn) ≤ 100000000 →
      ∀ p fl, pfn ≤ p → p < start + n → oracle p = .success fl →
        (⟨p, fl⟩ : PageInfo) ∈ readAllLoop oracle noFlag len cf pfn it := by
  intro len cf pfn it
  induction len, cf, pfn, it using readAllLoop.induct oracle noFlag with
  | case1 len cf pfn it h1 => simp [noFlag] at h1
  | case2 len cf pfn it h1 flags hor hsafe =>
      intro hst hcfb h3 hc p fl hp1 hp2 hor2
      have hpfnlt : pfn < start + n := by omega
      have hk : start + n - pfn = (start + n - (pfn + 1)) + 1 := by omega
      rw [hk, successCountFrom, hor,
        if_pos (show (ReadResult.success flags).isSuccess = true from rfl)] at hc
      rcases Nat.eq_or_lt_of_le hp1 with heq | hlt
      · subst heq
        rw [hor2] at hor
        injection hor with hfl
        subst hfl
        rw [readAllLoop, if_neg h1]
        simp only [hor2, if_pos hsafe]
        simp
      · omega
  | case3 len cf pfn it h1 flags hor hsafe ih =>
      intro hst hcfb h3 hc p fl hp1 hp2 hor2
      have hpfnlt : pfn < start + n := by omega
      have hk : start + n - pfn = (start + n - (pfn + 1)) + 1 := by omega
      rw [hk, successCountFrom, hor,
        if_pos (show (ReadResult.success flags).isSuccess = true from rfl)] at hc
      rw [readAllLoop, if_neg h1]
      simp only [hor, if_neg hsafe]
      rcases Nat.eq_or_lt_of_le hp1 with heq | hlt
      · subst heq
        rw [hor2] at hor
        injection hor with hfl
        subst hfl
        exact List.mem_cons_self _ _
      · refine List.mem_cons_of_mem _ ?_
        refine ih (by omega) (by omega) (fun q hq1 hq2 => by omega) (by omega)
          p fl (by omega) hp2 hor2
  | case4 len cf pfn it h1 hcf hns =>
      intro hst hcfb h3 hc p fl hp1 hp2 hor2
      exfalso
      obtain ⟨q, hq, hsucc⟩ := H (pfn - start - 1000) (by omega)
      have hpos : start + (pfn - start - 1000) + q = pfn - 1000 + q := by omega
      rw [hpos] at hsucc
      rcases Nat.lt_or_ge (pfn - 1000 + q) pfn with hlt | hge2
      · rw [h3 (pfn - 1000 + q) (by omega) hlt] at hsucc
        simp at hsucc
      · have hq' : pfn - 1000 + q = pfn := by omega
        rw [hq'] at hsucc
        cases hh : oracle pfn with
        | success f2 => exact hns f2 hh
        | absent => rw [hh] at hsucc; simp [ReadResult.isSuccess] at hsucc
        | ioError => rw [hh] at hsucc; simp [ReadResult.isSuccess] at hsucc
  | case5 len cf pfn it h1 hcf hsafe hns =>
      intro hst hcfb h3 hc p fl hp1 hp2 hor2
      omega
  | case6 len cf pfn it h1 hcf hsafe hns ih =>
      intro hst hcfb h3 hc p fl hp1 hp2 hor2
      have hfail : (oracle pfn).isSuccess = false := by
        cases hh : oracle pfn with
        | success f2 => exact absurd hh (hns f2)
        | absent => rfl
        | ioError => rfl
      have hpne : p ≠ pfn := by
        intro heq
        subst heq
        rw [hor2] at hfail
        simp [ReadResult.isSuccess] at hfail
      have hpfnlt : pfn < start + n := by omega
      have hk : start + n - pfn = (start + n - (pfn + 1)) + 1 := by omega
      rw [hk, successCountFrom, hfail] at hc
      simp only [Bool.false_eq_true, if_false] at hc
      rw [readAllLoop, if_neg h1]
      cases hh : oracle pfn with
      | success f2 => exact absurd hh (hns f2)
      | absent =>
          simp only [hh, if_neg hcf, if_neg hsafe]
          refine ih (by omega) (by omega) ?_ (by omega) p fl (by omega) hp2 hor2
          intro q hq1 hq2
          rcases Nat.eq_or_lt_of_le (Nat.lt_succ_iff.1 hq2) with heq | hlt
          · subst heq; exact hfail
          · exact h3 q (by omega) hlt
      | ioError =>
          simp only [hh, if_neg hcf, if_neg hsafe]
          refine ih (by omega) (by omega) ?_ (by omega) p fl (by omega) hp2 hor2
          intro q hq1 hq2
          rcases Nat.eq_or_lt_of_le (Nat.lt_succ_iff.1 hq2) with heq | hlt
          · subst heq; exact hfail
          · exact h3 q (by omega) hlt

theorem summaryLoop_total_bound (oracle : ℕ → ReadResult) (flag : ℕ → Bool)
    (endPfn : ℕ) :
    ∀ s cf pfn it, s.totalPages ≤ 100000000 →
      (summaryLoop oracle flag endPfn s cf pfn it).totalPages ≤ 100000001 := by
  intro s cf pfn it
  induction s, cf, pfn, it using summaryLoop.induct oracle flag endPfn with
  | case1 s cf pfn it hend =>
      intro hs
      rw [summaryLoop, if_pos hend]
      omega
  | case2 s cf pfn it hend h1 =>
      intro hs
      rw [summaryLoop, if_neg hend, if_pos h1]
      omega
  | case3 s cf pfn it hend h1 flags hor s1 hsafe =>
      intro hs
      rw [summaryLoop, if_neg hend, if_neg h1]
      simp only [hor]
      rw [if_pos hsafe]
      rw [record_totalPages]
      omega
  | case4 s cf pfn it hend h1 flags hor s1 hsafe ih =>
      intro hs
      rw [summaryLoop, if_neg hend, if_neg h1]
      simp only [hor]
      rw [if_neg hsafe]
      refine ih ?_
      rw [record_totalPages] at hsafe ⊢
      omega
  | case5 s cf pfn it hend h1 hcf hns =>
      intro hs
      rw [summaryLoop, if_neg hend, if_neg h1]
      cases hor : oracle pfn with
      | success f2 => exact absurd hor (hns f2)
      | absent => simp only [hor]; rw [if_pos hcf]; omega
      | ioError => simp only [hor]; rw [if_pos hcf]; omega
  | case6 s cf pfn it hend h1 hcf hsafe hns =>
      intro hs
      omega
  | case7 s cf pfn it hend h1 hcf hsafe hns ih =>
      intro hs
      rw [summaryLoop, if_neg hend, if_neg h1]
      cases hor : oracle pfn with
      | success f2 => exact absurd hor (hns f2)
      | absent => simp only [hor]; rw [if_neg hcf, if_neg hsafe]; exact ih hs
      | ioError => simp only [hor]; rw [if_neg hcf, if_neg hsafe]; exact ih hs

theorem summaryLoop_stop (oracle : ℕ → ReadResult) (flag : ℕ → Bool)
    (endPfn p0 : ℕ)
    (hwin : ∀ q < 1001, (oracle (p0 + q)).isSuccess = false) :
    ∀ s cf pfn it, pfn ≤ p0 + 1000 → pfn ≤ p0 + cf →
      (summaryLoop oracle flag endPfn s cf pfn it).totalPages ≤
        s.totalPages + successCountFrom oracle pfn (p0 - pfn) := by
  intro s cf pfn it
  induction s, cf, pfn, it using summaryLoop.induct oracle flag endPfn with
  | case1 s cf pfn it hend =>
      intro hb1 hb2
      rw [summaryLoop, if_pos hend]
      omega
  | case2 s cf pfn it hend h1 =>
      intro hb1 hb2
      rw [summaryLoop, if_neg hend, if_pos h1]
      omega
  | case3 s cf pfn it hend h1 flags hor s1 hsafe =>
      intro hb1 hb2
      rw [summaryLoop, if_neg hend, if_neg h1]
      simp only [hor]
      rw [if_pos hsafe, record_totalPages]
      have hplt : pfn < p0 := by
        by_contra hge
        push_neg at hge
        have hq := hwin (pfn - p0) (by omega)
        rw [show p0 + (pfn - p0) = pfn by omega, hor] at hq
        simp [ReadResult.isSuccess] at hq
      rw [show p0 - pfn = (p0 - (pfn + 1)) + 1 by omega, successCountFrom, hor,
        if_pos (show (ReadResult.success flags).isSuccess = true from rfl)]
      omega
  | case4 s cf pfn it hend h1 flags hor s1 hsafe ih =>
      intro hb1 hb2
      rw [summaryLoop, if_neg hend, if_neg h1]
      simp only [hor]
      rw [if_neg hsafe]
      have hplt : pfn < p0 := by
        by_contra hge
        push_neg at hge
        have hq := hwin (pfn - p0) (by omega)
        rw [show p0 + (pfn - p0) = pfn by omega, hor] at hq
        simp [ReadResult.isSuccess] at hq
      have := ih (by omega) (by omega)
      rw [show s1 = s.record flags from rfl, record_totalPages] at this
      rw [show p0 - pfn = (p0 - (pfn + 1)) + 1 by omega, successCountFrom, hor,
        if_pos (show (ReadResult.success flags).isSuccess = true from rfl)]
      omega
  | case5 s cf pfn it hend h1 hcf hns =>
      intro hb1 hb2
      rw [summaryLoop, if_neg hend, if_neg h1]
      cases hor : oracle pfn with
      | success f2 => exact absurd hor (hns f2)
      | absent => simp only [hor]; rw [if_pos hcf]; omega
      | ioError => simp only [hor]; rw [if_pos hcf]; omega
  | case6 s cf pfn it hend h1 hcf hsafe hns =>
      intro hb1 hb2
      rw [summaryLoop, if_neg hend, if_neg h1]
      cases hor : oracle pfn with
      | success f2 => exact absurd hor (hns f2)
      | absent => simp only [hor]; rw [if_neg hcf, if_pos hsafe]; omega
      | ioError => simp only [hor]; rw [if_neg hcf, if_pos hsafe]; omega
  | case7 s cf pfn it hend h1 hcf hsafe hns ih =>
      intro hb1 hb2
      have hfail : (oracle pfn).isSuccess = false := by
        cases hh : oracle pfn with
        | success f2 => exact absurd hh (hns f2)
        | absent => rfl
        | ioError => rfl
      rw [summaryLoop, if_neg hend, if_neg h1]
      cases hor : oracle pfn with
      | success f2 => exact absurd hor (hns f2)
      | absent =>
          simp only [hor]
          rw [if_neg hcf, if_neg hsafe]
          have := ih (by omega) (by omega)
          rcases Nat.lt_or_ge pfn p0 with hplt | hpge
          · rw [show p0 - pfn = (p0 - (pfn + 1)) + 1 by omega, successCountFrom, hfail]
            simpa using by omega
          · rw [show p0 - pfn = 0 by omega]
            rw [show p0 - (pfn + 1) = 0 by omega] at this
            simpa [successCountFrom] using by
              simpa [successCountFrom] using this
      | ioError =>
          simp only [hor]
          rw [if_neg hcf, if_neg hsafe]
          have := ih (by omega) (by omega)
          rcases Nat.lt_or_ge pfn p0 with hplt | hpge
          · rw [show p0 - pfn = (p0 - (pfn + 1)) + 1 by omega, successCountFrom, hfail]
            simpa using by omega
          · rw [show p0 - pfn = 0 by omega]
            rw [show p0 - (pfn + 1) = 0 by omega] at this
            simpa [successCountFrom] using by
              simpa [successCountFrom] using this

theorem summaryLoop_progress (oracle : ℕ → ReadResult) (start n : ℕ)
    (H : noLongRun oracle start n) :
    ∀ s cf pfn it, start ≤ pfn → pfn ≤ start + n → cf ≤ pfn - start →
      (∀ p, pfn ≤ p + cf → p < pfn → (oracle p).isSuccess = false) →
      s.totalPages + successCountFrom oracle pfn (start + n - pfn) ≤ 100000000 →
      (summaryLoop oracle noFlag (start + n) s cf pfn it).totalPages =
        s.totalPages + successCountFrom oracle pfn (start + n - pfn) := by
  intro s cf pfn it
  induction s, cf, pfn, it using summaryLoop.induct oracle noFlag (start + n) with
  | case1 s cf pfn it hend =>
      intro h0 hub h2 h3 hc
      rw [summaryLoop, if_pos hend, show start + n - pfn = 0 by omega]
      rfl
  | case2 s cf pfn it hend h1 => simp [noFlag] at h1
  | case3 s cf pfn it hend h1 flags hor s1 hsafe =>
      intro h0 hub h2 h3 hc
      exfalso
      rw [show s1 = s.record flags from rfl, record_totalPages] at hsafe
      rw [show start + n - pfn = (start + n - (pfn + 1)) + 1 by omega, successCountFrom,
        hor, if_pos (show (ReadResult.success flags).isSuccess = true from rfl)] at hc
      omega
  | case4 s cf pfn it hend h1 flags hor s1 hsafe ih =>
      intro h0 hub h2 h3 hc
      rw [summaryLoop, if_neg hend, if_neg h1]
      simp only [hor]
      rw [if_neg hsafe]
      rw [show start + n - pfn = (start + n - (pfn + 1)) + 1 by omega, successCountFrom,
        hor, if_pos (show (ReadResult.success flags).isSuccess = true from rfl)] at hc ⊢
      have hrec := ih (by omega) (by omega) (by omega)
        (fun p hp1 hp2 => by omega)
        (by rw [show s1 = s.record flags from rfl, record_totalPages]; omega)
      rw [show s1 = s.record flags from rfl, record_totalPages] at hrec
      omega
  | case5 s cf pfn it hend h1 hcf hns =>
      intro h0 hub h2 h3 hc
      exfalso
      obtain ⟨q, hq, hsucc⟩ := H (pfn - start - 1000) (by omega)
      have hpos : start + (pfn - start - 1000) + q = pfn - 1000 + q := by omega
      rw [hpos] at hsucc
      rcases Nat.lt_or_ge (pfn - 1000 + q) pfn with hlt | hge2
      · rw [h3 (pfn - 1000 + q) (by omega) hlt] at hsucc
        simp at hsucc
      · have hq' : pfn - 1000 + q = pfn := by omega
        rw [hq'] at hsucc
        cases hh : oracle pfn with
        | success f2 => exact hns f2 hh
        | absent => rw [hh] at hsucc; simp [ReadResult.isSuccess] at hsucc
        | ioError => rw [hh] at hsucc; simp [ReadResult.isSuccess] at hsucc
  | case6 s cf pfn it hend h1 hcf hsafe hns =>
      intro h0 hub h2 h3 hc
      omega
  | case7 s cf pfn it hend h1 hcf hsafe hns ih =>
      intro h0 hub h2 h3 hc
      have hfail : (oracle pfn).isSuccess = false := by
        cases hh : oracle pfn with
        | success f2 => exact absurd hh (hns f2)
        | absent => rfl
        | ioError => rfl
      rw [summaryLoop, if_neg hend, if_neg h1]
      rw [show start + n - pfn = (start + n - (pfn + 1)) + 1 by omega, successCountFrom,
        hfail] at hc ⊢
      simp only [Bool.false_eq_true, if_false] at hc ⊢
      cases hh : oracle pfn with
      | success f2 => exact absurd hh (hns f2)
      | absent =>
          rw [if_neg hcf, if_neg hsafe]
          have hrec := ih (by omega) (by omega) (by omega) ?_ (by omega)
          · omega
          · intro p hp1 hp2
            rcases Nat.eq_or_lt_of_le (Nat.lt_succ_iff.1 hp2) with heq | hlt
            · subst heq; exact hfail
            · exact h3 p (by omega) hlt
      | ioError =>
          rw [if_neg hcf, if_neg hsafe]
          have hrec := ih (by omega) (by omega) (by omega) ?_ (by omega)
          · omega
          · intro p hp1 hp2
            rcases Nat.eq_or_lt_of_le (Nat.lt_succ_iff.1 hp2) with heq | hlt
            · subst heq; exact hfail
            · exact h3 p (by omega) hlt

theorem readRangeLoop_length_le (oracle : ℕ → ReadResult) (flag : ℕ → Bool) :
    ∀ remaining len cf pfn it,
      (readRangeLoop oracle flag len cf pfn remaining it).length ≤ remaining := by
  intro remaining
  induction remaining with
  | zero => intro len cf pfn it; simp [readRangeLoop]
  | succ n ih =>
      intro len cf pfn it
      rw [readRangeLoop]
      split
      · simp
      · cases hor : oracle pfn with
        | success fl =>
            simp only [hor, List.length_cons]
            have := ih (len + 1) 0 (pfn + 1) (it + 1)
            omega
        | absent =>
            simp only [hor]
            split
            · simp
            · have := ih len (cf + 1) (pfn + 1) (it + 1)
              omega
        | ioError =>
            simp only [hor]
            split
            · simp
            · have := ih len (cf + 1) (pfn + 1) (it + 1)
              omega

theorem fullScanFrom_populated_length (oracle : ℕ → ReadResult) :
    ∀ r pfn, (∀ j < r, (oracle (pfn + j)).isSuccess = true) →
      (fullScanFrom oracle pfn r).length = r := by
  intro r
  induction r with
  | zero => intro pfn _; rfl
  | succ n ih =>
      intro pfn h
      have h0 := h 0 (by omega)
      rw [Nat.add_zero] at h0
      cases hor : oracle pfn with
      | success fl =>
          simp only [fullScanFrom, hor, List.length_cons]
          rw [ih (pfn + 1) ?_]
          intro j hj
          have := h (j + 1) (by omega)
          rwa [show pfn + (j + 1) = pfn + 1 + j by omega] at this
      | absent => rw [hor] at h0; simp [ReadResult.isSuccess] at h0
      | ioError => rw [hor] at h0; simp [ReadResult.isSuccess] at h0

theorem fullScanFrom_skip (oracle : ℕ → ReadResult) :
    ∀ k pfn r, (∀ j < k, (oracle (pfn + j)).isSuccess = false) →
      fullScanFrom oracle pfn (k + r) = fullScanFrom oracle (pfn + k) r := by
  intro k
  induction k with
  | zero => intro pfn r _; rw [Nat.zero_add, Nat.add_zero]
  | succ n ih =>
      intro pfn r h
      have h0 := h 0 (by omega)
      rw [Nat.add_zero] at h0
      rw [show n + 1 + r = (n + r) + 1 by omega]
      cases hor : oracle pfn with
      | success fl => rw [hor] at h0; simp [ReadResult.isSuccess] at h0
      | absent =>
          simp only [fullScanFrom, hor]
          rw [ih (pfn + 1) r ?_, show pfn + 1 + n = pfn + (n + 1) by omega]
          intro j hj
          have := h (j + 1) (by omega)
          rwa [show pfn + (j + 1) = pfn + 1 + j by omega] at this
      | ioError =>
          simp only [fullScanFrom, hor]
          rw [ih (pfn + 1) r ?_, show pfn + 1 + n = pfn + (n + 1) by omega]
          intro j hj
          have := h (j + 1) (by omega)
          rwa [show pfn + (j + 1) = pfn + 1 + j by omega] at this

theorem fileOracle_success (file : ℕ → Option ℕ) (p fl : ℕ)
    (h : fileOracle file p = .success fl) :
    readU64LE file (p * 8) = some fl := by
  rw [fileOracle] at h
  cases hr : readU64LE file (p * 8) with
  | none => rw [hr] at h; exact absurd h (by simp)
  | some v =>
      rw [hr] at h
      simp only [] at h
      injection h with hv
      rw [hv]
theorem land_shift_ne_testBit (n b : ℕ) :
    ((n &&& (1 <<< b)) != 0) = n.testBit b := by
  rw [Nat.shiftLeft_eq, one_mul, Nat.and_two_pow]
  cases h : n.testBit b <;> simp [h, Nat.pos_iff_ne_zero, Nat.pow_pos]

theorem foldrOr_testBit (l : List ℕ) (b : ℕ) :
    ((l.foldr (· ||| ·) 0).testBit b = true) ↔ ∃ m ∈ l, m.testBit b = true := by
  induction l with
  | nil => simp [Nat.zero_testBit]
  | cons a t ih => simp [Nat.testBit_or, ih]

theorem knownSum_eq_catalogOr : (PAGE_FLAGS.map (fun e => e.1)).sum = catalogOr := by
  decide

theorem zoom_in_zoomInv (s : AppState) (h : zoomInv s) : zoomInv (zoom_in s) := by
  obtain ⟨h1, h2⟩ := h
  constructor
  · refine le_min (le_trans h1 ?_) (by norm_num)
    nlinarith
  · exact min_le_right _ _

theorem zoom_out_zoomInv (s : AppState) (h : zoomInv s) : zoomInv (zoom_out s) := by
  obtain ⟨h1, h2⟩ := h
  constructor
  · exact le_max_right _ _
  · exact max_le (le_trans (div_le_self (by linarith) (by norm_num)) h2) (by norm_num)

theorem zoom_to_selection_zoomInv (s : AppState) (h : zoomInv s) :
    zoomInv (zoom_to_selection s) := by
  unfold zoom_to_selection
  split
  · dsimp only
    split
    · constructor
      · exact le_max_right _ _
      · exact max_le (min_le_right _ _) (by norm_num)
    · exact h
  · exact h

theorem cancel_selection_zoomInv (s : AppState) (h : zoomInv s) :
    zoomInv (cancel_selection s) := h

theorem applyEvent_zoomInv (s : AppState) (e : TuiEvent) (h : zoomInv s) :
    zoomInv (applyEvent s e) := by
  cases e with
  | zoomIn => exact zoom_in_zoomInv s h
  | zoomOut => exact zoom_out_zoomInv s h
  | moveUp => exact h
  | moveDown => exact h
  | moveLeft => exact h
  | moveRight => exact h
  | reset => refine ⟨?_, ?_⟩ <;> norm_num [applyEvent, reset_view]
  | escape => exact h
  | setFilter c => exact h
  | render g => exact h
  | mouse kind col row =>
      show zoomInv (handle_mouse_event s kind col row)
      unfold handle_mouse_event
      split
      · exact h
      · split
        · cases kind with
          | down => exact h
          | drag =>
              dsimp only
              split <;> exact h
          | up =>
              dsimp only
              split
              · exact cancel_selection_zoomInv _ (zoom_to_selection_zoomInv _ h)
              · exact h
          | scrollUp => exact zoom_in_zoomInv s h
          | scrollDown => exact zoom_out_zoomInv s h
        · exact h

theorem pan_delta_nonneg (z : ℚ) (hz : 1 / 10 ≤ z) : 0 ≤ f64_as_i64 (10 / z) := by
  have hq : (0 : ℚ) ≤ 10 / z := div_nonneg (by norm_num) (by linarith)
  exact Int.tdiv_nonneg (Rat.num_nonneg.2 hq) (by positivity)

theorem zoom_to_selection_offInv (s : AppState) (h : offInv s) :
    offInv (zoom_to_selection s) := by
  unfold zoom_to_selection
  split
  · dsimp only
    split
    · exact ⟨le_max_right _ _, le_max_right _ _⟩
    · exact h
  · exact h

theorem applyEvent_offInv (s : AppState) (e : TuiEvent) (hz : zoomInv s)
    (ho : offInv s) (he : notPanUpLeft e) : offInv (applyEvent s e) := by
  cases e with
  | zoomIn => exact ho
  | zoomOut => exact ho
  | moveUp => exact he.elim
  | moveDown => exact ⟨ho.1, add_nonneg ho.2 (pan_delta_nonneg _ hz.1)⟩
  | moveLeft => exact he.elim
  | moveRight => exact ⟨add_nonneg ho.1 (pan_delta_nonneg _ hz.1), ho.2⟩
  | reset => exact ⟨le_refl 0, le_refl 0⟩
  | escape => exact ho
  | setFilter c => exact ho
  | render g => exact ho
  | mouse kind col row =>
      show offInv (handle_mouse_event s kind col row)
      unfold handle_mouse_event
      split
      · exact ho
      · split
        · cases kind with
          | down => exact ho
          | drag =>
              dsimp only
              split <;> exact ho
          | up =>
              dsimp only
              split
              · exact zoom_to_selection_offInv _ ho
              · exact ho
          | scrollUp => exact ho
          | scrollDown => exact ho
        · exact ho

theorem applyEvents_zoomInv :
    ∀ (es : List TuiEvent) (s : AppState), zoomInv s → zoomInv (applyEvents s es) := by
  intro es
  induction es with
  | nil => intro s h; exact h
  | cons e t ih =>
      intro s h
      rw [applyEvents, List.foldl_cons]
      exact ih (applyEvent s e) (applyEvent_zoomInv s e h)

theorem applyEvents_offInv :
    ∀ (es : List TuiEvent) (s : AppState), zoomInv s → offInv s →
      (∀ e ∈ es, notPanUpLeft e) → offInv (applyEvents s es) := by
  intro es
  induction es with
  | nil => intro s _ ho _; exact ho
  | cons e t ih =>
      intro s hz ho hall
      rw [applyEvents, List.foldl_cons]
      exact ih (applyEvent s e) (applyEvent_zoomInv s e hz)
        (applyEvent_offInv s e hz ho (hall e (by simp)))
        (fun x hx => hall x (by simp [hx]))

theorem handle_drag_shape (s : AppState) (c r : ℕ) (hs : s.mouse_selecting = true) :
    handle_mouse_event s .drag c r = s ∨
    handle_mouse_event s .drag c r = { s with selection_end := some (c, r) } := by
  unfold handle_mouse_event
  rcases hg : s.grid_area with _ | g
  · exact Or.inl rfl
  · dsimp only
    split
    · exact Or.inr rfl
    · exact Or.inl rfl

theorem drag_trail (drags : List (ℕ × ℕ)) :
    ∀ s : AppState, s.mouse_selecting = true →
      ∃ en, applyEvents s (drags.map (fun p => TuiEvent.mouse .drag p.1 p.2)) =
        { s with selection_end := en } := by
  induction drags with
  | nil => intro s _; exact ⟨s.selection_end, rfl⟩
  | cons p ps ih =>
      intro s hs
      rw [List.map_cons, applyEvents, List.foldl_cons]
      show ∃ en, applyEvents (handle_mouse_event s .drag p.1 p.2) _ = _
      rcases handle_drag_shape s p.1 p.2 hs with he | he
      · rw [he]
        exact ih s hs
      · rw [he]
        obtain ⟨en, h2⟩ := ih { s with selection_end := some (p.1, p.2) } hs
        exact ⟨en, h2⟩

theorem handle_down_inside (s : AppState) (g : Rect) (c r : ℕ)
    (hg : s.grid_area = some g) (hin : inGrid g c r = true) :
    handle_mouse_event s .down c r =
      { s with mouse_selecting := true, selection_start := some (c, r),
               selection_end := some (c, r) } := by
  unfold handle_mouse_event
  rw [hg]
  dsimp only
  rw [if_pos hin]

theorem handle_up_inside (s : AppState) (g : Rect) (c r : ℕ)
    (hg : s.grid_area = some g) (hin : inGrid g c r = true)
    (hs : s.mouse_selecting = true) :
    handle_mouse_event s .up c r =
      cancel_selection (zoom_to_selection { s with selection_end := some (c, r) }) := by
  unfold handle_mouse_event
  rw [hg]
  dsimp only
  rw [if_pos hin, if_pos hs]

theorem zoom_to_selection_noop (s : AppState) (g : Rect) (st en : ℕ × ℕ)
    (hst : s.selection_start = some st) (hen : s.selection_end = some en)
    (hg : s.grid_area = some g)
    (hsmall : selWidth g st en ≤ 1 ∨ selHeight g st en ≤ 1) :
    zoom_to_selection s = s := by
  unfold zoom_to_selection
  rw [hst, hen, hg]
  dsimp only
  rw [if_neg ?_]
  rw [selWidth, selHeight] at hsmall
  intro hband
  omega

/-! ### Claim theorems -/

/-- C3: with a `/proc/meminfo` hint that *yields* 0 pages (for example a
`MemTotal: 0 kB` line), `estimate_max_pfn` returns 0 — the binary-search
fallback runs only when the hint *errors* — so the sampling mode draws
from the empty range `0..0`, which makes `gen_range` panic (modelled by
`genRange = none`); the binary-search estimator the claim expects would
have returned at least 1,000,000. -/
theorem C3_zero_hint_evaluation (probe : ℕ → Bool) :
    estimate_max_pfn (some (some 0)) probe = 0 ∧
    (∀ seed, genRange 0 0 seed = none) ∧
    1000000 ≤ binary_search_max_pfn probe := by
  refine ⟨?_, ?_, ?_⟩
  · simp [estimate_max_pfn, get_estimated_total_pages]
  · intro seed; simp [genRange]
  · exact Nat.le_max_right _ _

/-- C10: no scan writes the cancellation flag (in this embedding every
scan takes the flag as a read-only history `flag : ℕ → Bool`); a ranged,
full or summary scan started with the flag already set observes it at its
very first poll — before processing any record — and returns with zero
records accumulated. -/
theorem C10_preset_flag_zero_records (oracle : ℕ → ReadResult)
    (flag : ℕ → Bool) (start countR : ℕ) (countS : Option ℕ)
    (h : flag 0 = true) :
    read_range oracle flag start countR = [] ∧
    read_all_pages oracle flag start = [] ∧
    (scan_for_summary_only oracle flag start countS).totalPages = 0 := by
  refine ⟨?_, ?_, ?_⟩
  · cases countR <;> simp [read_range, readRangeLoop, h]
  · rw [read_all_pages, readAllLoop]
    simp [h]
  · rw [scan_for_summary_only.eq_def, summaryLoop]
    split <;> simp [h]

/-- Witness for C10 at a concrete always-set flag, all-success table,
`start = 0`, ranged count 5, summary count 5. -/
theorem C10_witness :
    read_range oracleAllSuccess (fun _ => true) 0 5 = [] ∧
    read_all_pages oracleAllSuccess (fun _ => true) 0 = [] ∧
    (scan_for_summary_only oracleAllSuccess (fun _ => true) 0 (some 5)).totalPages = 0 :=
  C10_preset_flag_zero_records oracleAllSuccess (fun _ => true) 0 5 (some 5) rfl

/-- C5: `get_unknown_flags` returns exactly the set bit positions in
`0..63` of `flags &&& ~(OR of all catalog masks)` (the source's sum of
masks coincides with their OR because the masks are distinct single
bits), and the result is empty iff every set bit of `flags` is covered by
some catalog entry. -/
theorem C5_unknown_flags (pfn flags : ℕ) (hflags : flags < 2 ^ 64) :
    (PageInfo.mk pfn flags).get_unknown_flags =
      (List.range 64).filter
        (fun b => (flags &&& (catalogOr ^^^ (2 ^ 64 - 1))).testBit b) ∧
    ((PageInfo.mk pfn flags).get_unknown_flags = [] ↔
      ∀ b, flags.testBit b = true → ∃ e ∈ PAGE_FLAGS, e.1.testBit b = true) := by
  have hmain : (PageInfo.mk pfn flags).get_unknown_flags =
      (List.range 64).filter
        (fun b => (flags &&& (catalogOr ^^^ (2 ^ 64 - 1))).testBit b) := by
    simp only [PageInfo.get_unknown_flags, knownSum_eq_catalogOr]
    refine List.filter_congr ?_
    intro b _
    exact land_shift_ne_testBit _ b
  refine ⟨hmain, ?_⟩
  rw [hmain, List.filter_eq_nil_iff]
  constructor
  · intro hnil b hb
    by_cases hb64 : b < 64
    · have h1 := hnil b (List.mem_range.2 hb64)
      rw [Nat.testBit_land, Nat.testBit_xor, Nat.testBit_two_pow_sub_one] at h1
      have hdec : decide (b < 64) = true := by simpa using hb64
      rw [hdec, hb] at h1
      have hcat : catalogOr.testBit b = true := by
        cases hc : catalogOr.testBit b
        · rw [hc] at h1; simp at h1
        · rfl
      obtain ⟨m, hm, hmb⟩ := (foldrOr_testBit _ b).1 hcat
      obtain ⟨e, he, rfl⟩ := List.mem_map.1 hm
      exact ⟨e, he, hmb⟩
    · exfalso
      have : flags < 2 ^ b :=
        lt_of_lt_of_le hflags (Nat.pow_le_pow_right (by omega) (by omega))
      rw [Nat.testBit_lt_two_pow this] at hb
      exact Bool.false_ne_true hb
  · intro hcov b hbmem
    rw [Nat.testBit_land, Nat.testBit_xor, Nat.testBit_two_pow_sub_one]
    have hb64 : b < 64 := List.mem_range.1 hbmem
    have hdec : decide (b < 64) = true := by simpa using hb64
    rw [hdec]
    cases hfb : flags.testBit b
    · simp
    · obtain ⟨e, he, heb⟩ := hcov b hfb
      have hcat : catalogOr.testBit b = true :=
        (foldrOr_testBit _ b).2 ⟨e.1, List.mem_map.2 ⟨e, he, rfl⟩, heb⟩
      rw [hcat]
      simp

/-- Witness for C5 at `flags = 2 ^ 33 + 2 ^ 5` (bit 5 = LRU is known,
bit 33 is unknown). -/
theorem C5_witness :
    (PageInfo.mk 0 (2 ^ 33 + 2 ^ 5)).get_unknown_flags =
      (List.range 64).filter
        (fun b => ((2 ^ 33 + 2 ^ 5) &&& (catalogOr ^^^ (2 ^ 64 - 1))).testBit b) :=
  (C5_unknown_flags 0 (2 ^ 33 + 2 ^ 5) (by norm_num)).1

/-- C8 counterexample: a single pan-up event from the initial view state
drives `offset_y` to `-10 < 0`, refuting the claim that the offsets
always remain ≥ 0 under every input event. -/
theorem C8_counterexample :
    (applyEvents AppState.default [TuiEvent.moveUp]).offset_y < 0 := by
  norm_num [applyEvents, applyEvent, move_up, f64_as_i64, AppState.default]

/-- C8 (amended): `zoom_level` stays in `[0.1, 10.0]` under every event
sequence from the initial state; `offset_x` and `offset_y` stay ≥ 0 under
every event except pan-up and pan-left, whose deltas are subtracted
without any clamp. -/
theorem C8_amended_clamps :
    (∀ es : List TuiEvent, zoomInv (applyEvents AppState.default es)) ∧
    (∀ es : List TuiEvent, (∀ e ∈ es, notPanUpLeft e) →
      offInv (applyEvents AppState.default es)) := by
  constructor
  · intro es
    exact applyEvents_zoomInv es _ ⟨by norm_num [AppState.default], by norm_num [AppState.default]⟩
  · intro es h
    exact applyEvents_offInv es _
      ⟨by norm_num [AppState.default], by norm_num [AppState.default]⟩
      ⟨le_refl 0, le_refl 0⟩ h

/-- Witness for C8 at the event sequence zoom-in, pan-down. -/
theorem C8_witness :
    zoomInv (applyEvents AppState.default [TuiEvent.zoomIn, TuiEvent.moveDown]) ∧
    offInv (applyEvents AppState.default [TuiEvent.zoomIn, TuiEvent.moveDown]) := by
  refine ⟨C8_amended_clamps.1 _, C8_amended_clamps.2 _ ?_⟩
  intro e he
  rcases List.mem_cons.1 he with rfl | he2
  · trivial
  · rcases List.mem_cons.1 he2 with rfl | he3
    · trivial
    · simp at he3

/-- C9: completing a rectangle selection (left-down inside the grid, any
drag trail, left-up inside the grid) whose cell-space bounding box has
width ≤ 1 or height ≤ 1 leaves `zoom_level`, `offset_x`, `offset_y` and
`category_filter` exactly as they were before the pointer-down. -/
theorem C9_small_selection_noop (s : AppState) (g : Rect) (d u : ℕ × ℕ)
    (drags : List (ℕ × ℕ)) (hg : s.grid_area = some g)
    (hd : inGrid g d.1 d.2 = true) (hu : inGrid g u.1 u.2 = true)
    (hsmall : selWidth g d u ≤ 1 ∨ selHeight g d u ≤ 1) :
    (applyEvents s (selectionEvents d drags u)).zoom_level = s.zoom_level ∧
    (applyEvents s (selectionEvents d drags u)).offset_x = s.offset_x ∧
    (applyEvents s (selectionEvents d drags u)).offset_y = s.offset_y ∧
    (applyEvents s (selectionEvents d drags u)).filter_category = s.filter_category := by
  rw [selectionEvents, applyEvents, List.foldl_cons, List.foldl_append]
  have h1 : applyEvent s (.mouse .down d.1 d.2) =
      { s with mouse_selecting := true, selection_start := some (d.1, d.2),
               selection_end := some (d.1, d.2) } := handle_down_inside s g d.1 d.2 hg hd
  rw [h1]
  obtain ⟨en, h2⟩ := drag_trail drags
    { s with mouse_selecting := true, selection_start := some (d.1, d.2),
             selection_end := some (d.1, d.2) } rfl
  rw [applyEvents] at h2
  rw [h2]
  have h3 := handle_up_inside
    { s with mouse_selecting := true, selection_start := some (d.1, d.2),
             selection_end := en } g u.1 u.2 hg hu rfl
  rw [List.foldl_cons, List.foldl_nil]
  have happ : ∀ (x : AppState) (k : MouseKind) (c r : ℕ),
      applyEvent x (.mouse k c r) = handle_mouse_event x k c r := fun _ _ _ _ => rfl
  rw [happ, h3]
  have h4 := zoom_to_selection_noop
    { s with mouse_selecting := true, selection_start := some (d.1, d.2),
             selection_end := some (u.1, u.2) } g (d.1, d.2) (u.1, u.2)
    rfl rfl hg hsmall
  rw [h4]
  exact ⟨rfl, rfl, rfl, rfl⟩

/-- Witness for C9: a 10×10 grid at the origin, selection from cell
`(2, 2)` to `(2, 5)` (width 1), one drag in between. -/
theorem C9_witness :
    (applyEvents { AppState.default with grid_area := some ⟨0, 0, 10, 10⟩ }
        (selectionEvents (2, 2) [(3, 3)] (2, 5))).zoom_level =
      ({ AppState.default with grid_area := some ⟨0, 0, 10, 10⟩ } : AppState).zoom_level :=
  (C9_small_selection_noop _ ⟨0, 0, 10, 10⟩ (2, 2) (2, 5) [(3, 3)] rfl
    (by decide) (by decide) (Or.inl (by decide))).1

/-- C2 counterexample: the bounded range scan has no 100,000,000-record
safety check at all — over a fully populated table it returns as many
records as requested, here 100,000,002 > 100,000,000. -/
theorem C2_counterexample :
    (read_range oracleAllSuccess noFlag 0 100000002).length = 100000002 ∧
    100000000 < (read_range oracleAllSuccess noFlag 0 100000002).length := by
  have hnlr : noLongRun oracleAllSuccess 0 100000002 :=
    fun j hj => ⟨0, by omega, rfl⟩
  have heq := readRangeLoop_progress oracleAllSuccess 0 100000002 hnlr
    100000002 0 0 0 0 (le_refl 0) rfl (by omega) (fun p h1 h2 => by omega)
  have hlen : (read_range oracleAllSuccess noFlag 0 100000002).length = 100000002 := by
    rw [read_range, heq, fullScanFrom_populated_length oracleAllSuccess 100000002 0
      (fun j hj => rfl)]
  exact ⟨hlen, by omega⟩

/-- C2 (amended): the unbounded scan and the summary scan accumulate at
most 100,000,001 records (the safety check fires only once the count
*exceeds* 100,000,000, and the unbounded scan over an infinite table
reaches exactly 100,000,001); the bounded range scan is limited only by
its `count` argument, and sampling only by `sample_size` — neither has
the 100M safety check. All bounds hold for every cancellation-flag
history. -/
theorem C2_amended_safety_bounds :
    (∀ (oracle : ℕ → ReadResult) (flag : ℕ → Bool) (start : ℕ),
      (read_all_pages oracle flag start).length ≤ 100000001) ∧
    ((read_all_pages oracleAllSuccess noFlag 0).length = 100000001) ∧
    (∀ (oracle : ℕ → ReadResult) (flag : ℕ → Bool) (start : ℕ) (count : Option ℕ),
      (scan_for_summary_only oracle flag start count).totalPages ≤ 100000001) ∧
    (∀ (oracle : ℕ → ReadResult) (flag : ℕ → Bool) (start count : ℕ),
      (read_range oracle flag start count).length ≤ count) ∧
    (∀ (oracle : ℕ → ReadResult) (rng : ℕ → ℕ) (flag : ℕ → Bool) (size : ℕ),
      (scan_sampled_summary oracle rng flag size).successes ≤ size) := by
  refine ⟨?_, ?_, ?_, ?_, ?_⟩
  · intro oracle flag start
    have := readAllLoop_len_bound oracle flag 0 0 start 0 (by omega)
    rw [read_all_pages]
    omega
  · exact readAllLoop_all_success_length 0 0 0 0 (by omega)
  · intro oracle flag start count
    exact summaryLoop_total_bound oracle flag _ _ 0 start 0 (Nat.zero_le _)
  · intro oracle flag start count
    exact readRangeLoop_length_le oracle flag count 0 0 start 0
  · intro oracle rng flag size
    exact sampleLoop_succ_le_size oracle rng flag size (size * 10) ⟨0, 0, 0⟩ (Nat.zero_le _)

/-- C4: over a fully populated range (with the range end inside the
`u64`/offset domain) the bounded range scan with the flag never set
returns exactly `count` records; in every scan the records are in
strictly increasing PFN order; and every returned record's flags are the
little-endian `u64` read at byte offset `pfn * 8` of the backing file. -/
theorem C4_bounded_scan_exact (file : ℕ → Option ℕ) (start count : ℕ)
    (_hw : start + count ≤ 2 ^ 61)
    (hpop : ∀ j < count, (fileOracle file (start + j)).isSuccess = true) :
    (read_range (fileOracle file) noFlag start count).length = count ∧
    (∀ (oracle : ℕ → ReadResult) (flag : ℕ → Bool) (s c : ℕ),
      List.Chain' (fun a b : PageInfo => a.pfn < b.pfn) (read_range oracle flag s c)) ∧
    (∀ flag : ℕ → Bool, ∀ rec ∈ read_range (fileOracle file) flag start count,
      readU64LE file (rec.pfn * 8) = some rec.flags) := by
  refine ⟨?_, ?_, ?_⟩
  · have hnlr : noLongRun (fileOracle file) start count := by
      intro j hj
      refine ⟨0, by omega, ?_⟩
      rw [Nat.add_zero]
      exact hpop j (by omega)
    have heq := readRangeLoop_progress (fileOracle file) start count hnlr
      count 0 0 start 0 (le_refl start) rfl (by omega) (fun p h1 h2 => by omega)
    rw [read_range, heq, fullScanFrom_populated_length (fileOracle file) count start hpop]
  · intro oracle flag s c
    exact readRangeLoop_chain oracle flag c 0 0 s 0
  · intro flag rec hrec
    exact fileOracle_success file rec.pfn rec.flags
      (readRangeLoop_mem (fileOracle file) flag count 0 0 start 0 rec hrec).2

/-- Witness for C4: the 16-byte file `wfile` holds two fully populated
records starting at PFN 0. -/
theorem C4_witness :
    (read_range (fileOracle wfile) noFlag 0 2).length = 2 :=
  (C4_bounded_scan_exact wfile 0 2 (by norm_num) (by decide)).1

/-- C6: in sampling mode `attempts ≥ samples_collected` holds at every
point of the loop (every fuel cutoff of the run from the initial state),
and with the flag never set the loop stops exactly at
`samples_collected = sample_size` or `attempts = 10 × sample_size`,
whichever is reached first; the bound `sample_size * 10 < 2 ^ 32` keeps
the `u32` product `max_attempts` inside machine range. -/
theorem C6_sampling_invariant_and_termination (oracle : ℕ → ReadResult)
    (rng : ℕ → ℕ) (sample_size : ℕ) (_hw : sample_size * 10 < 2 ^ 32) :
    (∀ (flag : ℕ → Bool) (fuel : ℕ),
      (sampleLoop oracle rng flag sample_size fuel ⟨0, 0, 0⟩).successes ≤
        (sampleLoop oracle rng flag sample_size fuel ⟨0, 0, 0⟩).attempts) ∧
    (scan_sampled_summary oracle rng noFlag sample_size).successes ≤ sample_size ∧
    (scan_sampled_summary oracle rng noFlag sample_size).attempts ≤ sample_size * 10 ∧
    ((scan_sampled_summary oracle rng noFlag sample_size).successes = sample_size ∨
      (scan_sampled_summary oracle rng noFlag sample_size).attempts = sample_size * 10) := by
  refine ⟨?_, ?_, ?_, ?_⟩
  · intro flag fuel
    exact sampleLoop_succ_le_att oracle rng flag sample_size fuel ⟨0, 0, 0⟩ (le_refl 0)
  · exact (sampleLoop_exact oracle rng sample_size (sample_size * 10) ⟨0, 0, 0⟩
      (Nat.zero_le _) (by simp)).1
  · exact (sampleLoop_exact oracle rng sample_size (sample_size * 10) ⟨0, 0, 0⟩
      (Nat.zero_le _) (by simp)).2.1
  · exact (sampleLoop_exact oracle rng sample_size (sample_size * 10) ⟨0, 0, 0⟩
      (Nat.zero_le _) (by simp)).2.2

/-- Witness for C6: sample size 3 over a fully populated table — the loop
collects 3 samples or spends 30 attempts. -/
theorem C6_witness :
    (scan_sampled_summary oracleAllSuccess (fun i => i) noFlag 3).successes = 3 ∨
    (scan_sampled_summary oracleAllSuccess (fun i => i) noFlag 3).attempts = 3 * 10 :=
  (C6_sampling_invariant_and_termination oracleAllSuccess (fun i => i) 3
    (by norm_num)).2.2.2

set_option maxRecDepth 8000 in
/-- C1 counterexample: over a table whose PFNs 0..999 are absent — a run
of exactly 1000 consecutive failed reads — and whose PFN 1000 is
readable, the bounded scan does *not* stop at the 1000-run: it goes on to
read and return the record at PFN 1000 (the break requires
`consecutive_failures > 1000`, i.e. 1001 failures). -/
theorem C1_counterexample :
    (∀ q < 1000, (oracleRun1000 q).isSuccess = false) ∧
    read_range oracleRun1000 noFlag 0 1001 = [⟨1000, 7⟩] := by
  constructor
  · decide
  · have hnlr : noLongRun oracleRun1000 0 1001 := by
      intro j hj
      have hj0 : j = 0 := by omega
      subst hj0
      exact ⟨1000, by omega, by decide⟩
    have heq := readRangeLoop_progress oracleRun1000 0 1001 hnlr
      1001 0 0 0 0 (le_refl 0) rfl (by omega) (fun p h1 h2 => by omega)
    rw [read_range, heq]
    have hskip := fullScanFrom_skip oracleRun1000 1000 0 1 (by decide)
    rw [show (1001 : ℕ) = 1000 + 1 from rfl, hskip]
    decide

/-- C1 (amended): in all three sequential modes the scan stops exactly
when a run of 1001 consecutive failed reads has occurred; a successful
read resets the consecutive-failure counter, so a run of at most 1000
failures followed by a success never terminates the scan. Concretely:
(1,3,5) once a 1001-failure window starts at PFN `start + p`, no
record/count at or beyond that window is produced, for any flag history;
(2) absent any 1001-run in the range, the bounded scan returns every
successful read of its whole range; (4) absent any 1001-run among the
first `n` PFNs (and below the safety limit) the unbounded scan reaches
every success there; (6) likewise the summary scan counts exactly the
successes of its whole range. -/
theorem C1_amended_failure_threshold :
    (∀ (oracle : ℕ → ReadResult) (flag : ℕ → Bool) (start count p : ℕ),
      failWindow oracle (start + p) →
      ∀ rec ∈ read_range oracle flag start count, rec.pfn < start + p) ∧
    (∀ (oracle : ℕ → ReadResult) (start count : ℕ),
      noLongRun oracle start count →
      read_range oracle noFlag start count = fullScan oracle start count) ∧
    (∀ (oracle : ℕ → ReadResult) (flag : ℕ → Bool) (start p : ℕ),
      failWindow oracle (start + p) →
      ∀ rec ∈ read_all_pages oracle flag start, rec.pfn < start + p) ∧
    (∀ (oracle : ℕ → ReadResult) (start n : ℕ),
      noLongRun oracle start n → successCountFrom oracle start n ≤ 100000000 →
      ∀ p fl, start ≤ p → p < start + n → oracle p = .success fl →
        (⟨p, fl⟩ : PageInfo) ∈ read_all_pages oracle noFlag start) ∧
    (∀ (oracle : ℕ → ReadResult) (flag : ℕ → Bool) (start : ℕ)
        (count : Option ℕ) (p : ℕ),
      failWindow oracle (start + p) →
      (scan_for_summary_only oracle flag start count).totalPages ≤
        successCountFrom oracle start p) ∧
    (∀ (oracle : ℕ → ReadResult) (start n : ℕ),
      noLongRun oracle start n → successCountFrom oracle start n ≤ 100000000 →
      (scan_for_summary_only oracle noFlag start (some n)).totalPages =
        successCountFrom oracle start n) := by
  refine ⟨?_, ?_, ?_, ?_, ?_, ?_⟩
  · intro oracle flag start count p hwin rec hrec
    exact readRangeLoop_stop oracle flag (start + p) hwin count 0 0 start 0
      (by omega) (by omega) rec hrec
  · intro oracle start count hnlr
    have heq := readRangeLoop_progress oracle start count hnlr
      count 0 0 start 0 (le_refl start) rfl (by omega) (fun p h1 h2 => by omega)
    rw [read_range, heq, fullScanFrom_eq_fullScan]
  · intro oracle flag start p hwin rec hrec
    exact readAllLoop_stop oracle flag (start + p) hwin 0 0 start 0
      (by omega) (by omega) rec hrec
  · intro oracle start n hnlr hsc p fl hp1 hp2 hor
    refine readAllLoop_progress_mem oracle start n hnlr 0 0 start 0
      (le_refl start) (by omega) (fun q hq1 hq2 => by omega) ?_ p fl hp1 hp2 hor
    rw [show start + n - start = n by omega]
    omega
  · intro oracle flag start count p hwin
    have hthis := summaryLoop_stop oracle flag
      (match count with | some c => start + c | none => 2 ^ 64 - 1)
      (start + p) hwin
      ⟨0, 0, List.replicate PAGE_FLAGS.length 0, List.replicate 8 0⟩ 0 start 0
      (by omega) (by omega)
    rw [show start + p - start = p by omega] at hthis
    rw [scan_for_summary_only.eq_def]
    dsimp only
    simpa using hthis
  · intro oracle start n hnlr hsc
    have hthis := summaryLoop_progress oracle start n hnlr
      ⟨0, 0, List.replicate PAGE_FLAGS.length 0, List.replicate 8 0⟩ 0 start 0
      (le_refl start) (by omega) (by omega) (fun q hq1 hq2 => by omega) ?_
    · rw [show start + n - start = n by omega] at hthis
      rw [scan_for_summary_only.eq_def]
      dsimp only
      simpa using hthis
    · rw [show start + n - start = n by omega]
      simpa using hsc

set_option maxRecDepth 8000 in
/-- Witness for C1 at the table `oracleTwoPages` (PFNs 0 and 1 readable,
the rest absent): a 1001-failure window starts at PFN 2, and the ranges
scanned are 5 PFNs from 0. -/
theorem C1_witness :
    (∀ rec ∈ read_range oracleTwoPages noFlag 0 5, rec.pfn < 0 + 2) ∧
    read_range oracleTwoPages noFlag 0 5 = fullScan oracleTwoPages 0 5 ∧
    (∀ rec ∈ read_all_pages oracleTwoPages noFlag 0, rec.pfn < 0 + 2) ∧
    (⟨1, 5⟩ : PageInfo) ∈ read_all_pages oracleTwoPages noFlag 0 ∧
    (scan_for_summary_only oracleTwoPages noFlag 0 (some 5)).totalPages ≤
      successCountFrom oracleTwoPages 0 2 ∧
    (scan_for_summary_only oracleTwoPages noFlag 0 (some 5)).totalPages =
      successCountFrom oracleTwoPages 0 5 := by
  have hwin : failWindow oracleTwoPages (0 + 2) := by
    unfold failWindow
    decide
  have hnlr : noLongRun oracleTwoPages 0 5 := fun j hj => absurd hj (by omega)
  have hsc : successCountFrom oracleTwoPages 0 5 ≤ 100000000 := by decide
  refine ⟨C1_amended_failure_threshold.1 oracleTwoPages noFlag 0 5 2 hwin,
    C1_amended_failure_threshold.2.1 oracleTwoPages 0 5 hnlr,
    C1_amended_failure_threshold.2.2.1 oracleTwoPages noFlag 0 2 hwin,
    C1_amended_failure_threshold.2.2.2.1 oracleTwoPages 0 5 hnlr hsc 1 5
      (by omega) (by omega) (by decide),
    C1_amended_failure_threshold.2.2.2.2.1 oracleTwoPages noFlag 0 (some 5) 2 hwin,
    C1_amended_failure_threshold.2.2.2.2.2 oracleTwoPages 0 5 hnlr hsc⟩
